import Mathlib

/-!
Verification of the OptimizedCode utility library: a string-copy helper
(`utils::duplicateString`) and an array generation/summation pair
(`utils::createArray`, `utils::computeSum`), against the repository's
specification and unit tests.

The repository ships only the header declaration of `duplicateString`
(src/include/StringUtils.hpp) and the unit tests
(src/tests/test_string_utils.cpp, src/tests/test_array_utils.cpp); the
function bodies and ArrayUtils.hpp are not present under src/.  The
definitions below are therefore modelled from the specification's wording,
kept faithful to the C++ types the tests exhibit (`std::vector<int>`
elements, an `int64_t` accumulator for the sum, `std::string_view` input
and `std::string` result for the copy).
-/

namespace Utils

/-- Error taxonomy of the spec: `InvalidArgument` for a malformed input such
as a negative count, `AllocationError` for resource exhaustion. -/
inductive UtilsError where
  | invalidArgument
  | allocationError
deriving DecidableEq

/-- Modelled from the spec: `duplicateString` (declared in
src/include/StringUtils.hpp, body missing from src/) returns "a newly
allocated OwnedString whose contents exactly match input".  The character
sequence is copied element by element into a fresh list. -/
def duplicateString (s : List Char) : List Char :=
  s.foldr (fun c acc => c :: acc) []

/-- Modelled from the spec: `createArray` (ArrayUtils.hpp missing from src/)
returns "an IntegerSequence of exactly `count` elements where element
i = 3 × i, for i in [0, count)"; a negative count is "a precondition
violation, fails with InvalidArgument".  The count is the C++ `int`
argument, modelled as an unbounded integer. -/
def createArray (count : Int) : Except UtilsError (List Int) :=
  if count < 0 then Except.error UtilsError.invalidArgument
  else Except.ok ((List.range count.toNat).map (fun i : Nat => 3 * (i : Int)))

/-- Two to the sixty-third power, the magnitude bound of a signed 64-bit
integer. -/
def int64Half : Int := 9223372036854775808

/-- Two to the sixty-fourth power, the modulus of 64-bit arithmetic. -/
def int64Mod : Int := 18446744073709551616

/-- Wrap an unbounded integer into the signed 64-bit range
[-2^63, 2^63), i.e. the value an `int64_t` holds after two's-complement
wraparound. -/
def wrap64 (x : Int) : Int :=
  (x + int64Half) % int64Mod - int64Half

/-- Modelled from the spec: `computeSum` (ArrayUtils.hpp missing from src/)
returns "the arithmetic sum of all elements, accumulated in a range wide
enough to avoid overflow for realistic input sizes (at least 64-bit
signed)".  The tests bind the result to `int64_t`, so the accumulator is
modelled as a signed 64-bit integer: each addition wraps at 64 bits. -/
def computeSum (seq : List Int) : Int :=
  seq.foldl (fun acc x => wrap64 (acc + x)) 0

/-- The 32-bit range of a C++ `int` element of the sequence. -/
def isInt32 (x : Int) : Prop := -2147483648 ≤ x ∧ x < 2147483648

/-- The signed 64-bit range. -/
def fitsInt64 (x : Int) : Prop := -int64Half ≤ x ∧ x < int64Half

instance (x : Int) : Decidable (isInt32 x) := by
  unfold isInt32; infer_instance

instance (x : Int) : Decidable (fitsInt64 x) := by
  unfold fitsInt64 int64Half; infer_instance

/- ### Helper lemmas -/

theorem wrap64_add_left (a x : Int) : wrap64 (wrap64 a + x) = wrap64 (a + x) := by
  unfold wrap64 int64Half int64Mod
  omega

theorem wrap64_of_fits (x : Int) (h : fitsInt64 x) : wrap64 x = x := by
  unfold fitsInt64 int64Half at h
  unfold wrap64 int64Half int64Mod
  omega

theorem computeSum_foldl_wrap (seq : List Int) :
    ∀ a : Int, seq.foldl (fun acc x => wrap64 (acc + x)) (wrap64 a) = wrap64 (a + seq.sum) := by
  induction seq with
  | nil => intro a; simp [List.foldl]
  | cons y ys ih =>
      intro a
      simp only [List.foldl, List.sum_cons]
      rw [wrap64_add_left, ih (a + y)]
      ring_nf

theorem computeSum_eq_wrap_sum (seq : List Int) : computeSum seq = wrap64 seq.sum := by
  have h0 : wrap64 0 = 0 := by unfold wrap64 int64Half int64Mod; omega
  have := computeSum_foldl_wrap seq 0
  rw [h0] at this
  simpa [computeSum] using this

theorem createArray_nonneg (n : Int) (h : 0 ≤ n) :
    createArray n = Except.ok ((List.range n.toNat).map (fun i : Nat => 3 * (i : Int))) := by
  unfold createArray
  rw [if_neg (by omega)]

theorem range_map_getD (k : Nat) (f : Nat → Int) (i : Nat) (h : i < k) :
    ((List.range k).map f).getD i 0 = f i := by
  rw [List.getD_eq_getElem?_getD, List.getElem?_map, List.getElem?_range h]
  rfl

end Utils

open Utils

/- ### Claims -/

/-- C1: for every non-negative count n, `createArray n` succeeds with a
sequence of exactly n elements whose element at every position i is 3*i;
in particular `createArray 0` is the empty sequence, not an error. -/
theorem createArray_correct (n : Int) (h : 0 ≤ n) :
    ∃ l : List Int, createArray n = Except.ok l ∧ l.length = n.toNat ∧
      (∀ i : Nat, i < n.toNat → l.getD i 0 = 3 * (i : Int)) ∧
      (n = 0 → l = []) := by
  refine ⟨(List.range n.toNat).map (fun i : Nat => 3 * (i : Int)),
    createArray_nonneg n h, by rw [List.length_map, List.length_range], ?_, ?_⟩
  · intro i hi
    exact range_map_getD n.toNat _ i hi
  · intro h0
    subst h0
    simp

/-- Witness for C1: `createArray 5` at the concrete count 5. -/
theorem createArray_correct_witness :
    ∃ l : List Int, createArray 5 = Except.ok l ∧ l.length = (5 : Int).toNat ∧
      (∀ i : Nat, i < (5 : Int).toNat → l.getD i 0 = 3 * (i : Int)) ∧
      ((5 : Int) = 0 → l = []) :=
  createArray_correct 5 (by decide)

/-- C2: `computeSum` returns the arithmetic sum of the sequence's elements
whenever that sum lies in the 64-bit accumulator's range (the spec's
"realistic input sizes"); in particular for every single 32-bit element x,
`computeSum [x] = x`. -/
theorem computeSum_eq_sum (seq : List Int) (hfit : fitsInt64 seq.sum) :
    computeSum seq = seq.sum ∧
      ∀ x : Int, isInt32 x → computeSum [x] = x := by
  constructor
  · rw [computeSum_eq_wrap_sum]
    exact wrap64_of_fits _ hfit
  · intro x hx
    rw [computeSum_eq_wrap_sum]
    have hs : ([x] : List Int).sum = x := by simp
    rw [hs]
    apply wrap64_of_fits
    unfold isInt32 at hx
    unfold fitsInt64 int64Half
    omega

/-- Witness for C2: the sum of [40, 2] is 42, within the 64-bit range. -/
theorem computeSum_eq_sum_witness :
    computeSum [40, 2] = ([40, 2] : List Int).sum ∧
      ∀ x : Int, isInt32 x → computeSum [x] = x :=
  computeSum_eq_sum [40, 2] (by decide)

/-- C3: `duplicateString` returns a character sequence equal, element for
element, to its input, the empty string included. -/
theorem duplicateString_eq (s : List Char) : duplicateString s = s := by
  induction s with
  | nil => rfl
  | cons c cs ih => simp only [duplicateString, List.foldr] at ih ⊢; rw [ih]

/-- C4: `computeSum` of the empty sequence is exactly 0. -/
theorem computeSum_nil : computeSum ([] : List Int) = 0 := rfl

set_option maxRecDepth 10000 in
/-- C5: composing the two ArrayUtils operations at count 50 gives the
arithmetic-series value: `computeSum` of the sequence produced by
`createArray 50` equals 3675. -/
theorem computeSum_createArray_50 :
    ∃ l : List Int, createArray 50 = Except.ok l ∧ computeSum l = 3675 := by
  refine ⟨_, createArray_nonneg 50 (by decide), ?_⟩
  decide

/-- C6: the accumulator of `computeSum` is 64-bit signed, so for every
sequence of 32-bit elements whose mathematical sum fits in a signed
64-bit integer, the result is the exact mathematical sum, with no 32-bit
wraparound. -/
theorem computeSum_no_overflow (seq : List Int)
    (_h32 : ∀ x ∈ seq, isInt32 x) (hfit : fitsInt64 seq.sum) :
    computeSum seq = seq.sum := by
  rw [computeSum_eq_wrap_sum]
  exact wrap64_of_fits _ hfit

/-- Witness for C6: a two-element sequence whose exact sum 4294967294
exceeds the 32-bit range yet is returned exactly. -/
theorem computeSum_no_overflow_witness :
    computeSum [2147483647, 2147483647] = ([2147483647, 2147483647] : List Int).sum :=
  computeSum_no_overflow [2147483647, 2147483647]
    (by intro x hx; fin_cases hx <;> decide) (by decide)

/-- C7: for every negative count, `createArray` fails with the
InvalidArgument error, surfacing it to the caller. -/
theorem createArray_negative (n : Int) (h : n < 0) :
    createArray n = Except.error UtilsError.invalidArgument := by
  unfold createArray
  rw [if_pos h]

/-- Witness for C7: the concrete negative count -1. -/
theorem createArray_negative_witness :
    createArray (-1) = Except.error UtilsError.invalidArgument :=
  createArray_negative (-1) (by decide)

/-- C9: `duplicateString`, `createArray` and `computeSum` are
deterministic: two invocations on equal inputs return equal results. -/
theorem utils_deterministic (s t : List Char) (n m : Int) (l k : List Int)
    (hs : s = t) (hn : n = m) (hl : l = k) :
    duplicateString s = duplicateString t ∧
      createArray n = createArray m ∧ computeSum l = computeSum k := by
  subst hs; subst hn; subst hl
  exact ⟨rfl, rfl, rfl⟩

/-- Witness for C9: repeated calls at concrete inputs agree. -/
theorem utils_deterministic_witness :
    duplicateString [] = duplicateString [] ∧
      createArray 5 = createArray 5 ∧ computeSum [42] = computeSum [42] :=
  utils_deterministic [] [] 5 5 [42] [42] rfl rfl rfl

/-- C10: `duplicateString` takes a length-carrying view, so its result has
the same length as the input and the same element at every position, with
no truncation at an embedded NUL character. -/
theorem duplicateString_no_truncation (s : List Char) :
    (duplicateString s).length = s.length ∧
      ∀ i : Nat, i < s.length →
        (duplicateString s).getD i (Char.ofNat 0) = s.getD i (Char.ofNat 0) := by
  have h : duplicateString s = s := by
    induction s with
    | nil => rfl
    | cons c cs ih => simp only [duplicateString, List.foldr] at ih ⊢; rw [ih]
  rw [h]
  exact ⟨rfl, fun _ _ => rfl⟩

/-- Witness for C10: an input with an embedded NUL byte between two
letters is copied whole. -/
theorem duplicateString_no_truncation_witness :
    (duplicateString ['a', Char.ofNat 0, 'b']).length = (['a', Char.ofNat 0, 'b'] : List Char).length ∧
      ∀ i : Nat, i < (['a', Char.ofNat 0, 'b'] : List Char).length →
        (duplicateString ['a', Char.ofNat 0, 'b']).getD i (Char.ofNat 0) =
          (['a', Char.ofNat 0, 'b'] : List Char).getD i (Char.ofNat 0) :=
  duplicateString_no_truncation ['a', Char.ofNat 0, 'b']
